import Mathlib

set_option maxHeartbeats 1000000

/-!
Shallow embedding of the form-schema utilities of the Pattern_Tracker
frontend (`src/frontend/src/utils/formSchemaBuilder.js` and
`src/frontend/src/screens/LogSymptomsScreen.js`).

JavaScript runtime values are modelled by `JVal`.  Numbers are modelled as
integers (`Int`): every numeric literal appearing in the modelled code is an
integer and the only numeric operations performed are order comparisons and
length comparisons.  `jundefined` models the JavaScript value `undefined`;
property lookup on an object that lacks the key yields `jundefined`, exactly as
member access does in JavaScript.  Objects are modelled as insertion-ordered
association lists, matching JavaScript's own-property enumeration order for
string keys.  String lengths and string indexing are modelled on code points
rather than UTF-16 units; none of the modelled code distinguishes the two on
the inputs it handles.
-/

/-- A JavaScript runtime value (JSON values plus `undefined`). -/
inductive JVal where
  | jundefined : JVal
  | jnull : JVal
  | jbool (b : Bool) : JVal
  | jnum (n : Int) : JVal
  | jstr (s : String) : JVal
  | jarr (elems : List JVal) : JVal
  | jobj (entries : List (String × JVal)) : JVal

/-- JavaScript truthiness (`Boolean(v)`). -/
def JVal.truthy : JVal → Bool
  | .jundefined => false
  | .jnull => false
  | .jbool b => b
  | .jnum n => decide (n ≠ 0)
  | .jstr s => decide (s ≠ "")
  | .jarr _ => true
  | .jobj _ => true

/-- JavaScript `typeof v` (note `typeof null` is `"object"`). -/
def JVal.typeof : JVal → String
  | .jundefined => "undefined"
  | .jnull => "object"
  | .jbool _ => "boolean"
  | .jnum _ => "number"
  | .jstr _ => "string"
  | .jarr _ => "object"
  | .jobj _ => "object"

/-- `Array.isArray(v)`. -/
def JVal.isArray : JVal → Bool
  | .jarr _ => true
  | _ => false

/-- `v === null`. -/
def JVal.isNull : JVal → Bool
  | .jnull => true
  | _ => false

/-- `v === undefined`. -/
def JVal.isUndef : JVal → Bool
  | .jundefined => true
  | _ => false

/-- JavaScript strict equality `v === s` against a string literal. -/
def JVal.eqStr : JVal → String → Bool
  | .jstr t, s => t == s
  | _, _ => false

/-- JavaScript strict equality `v === n` against a number literal. -/
def JVal.eqNum : JVal → Int → Bool
  | .jnum m, n => m == n
  | _, _ => false

/-- First-match association-list lookup; `jundefined` when the key is absent
(JavaScript member access on a plain object). -/
def lookupEntry : List (String × JVal) → String → JVal
  | [], _ => .jundefined
  | (k, v) :: rest, key => if k = key then v else lookupEntry rest key

mutual
/-- JavaScript `String(v)` / `ToString`, as used for computed property keys
and by `Array.prototype.join`.  Plain objects print as
`"[object Object]"`. -/
def JVal.toKeyString : JVal → String
  | .jundefined => "undefined"
  | .jnull => "null"
  | .jbool b => cond b "true" "false"
  | .jnum n => toString n
  | .jstr s => s
  | .jarr xs => String.intercalate "," (joinParts xs)
  | .jobj _ => "[object Object]"

/-- `Array.prototype.join(",")` parts: `null` and `undefined` elements
print as the empty string. -/
def joinParts : List JVal → List String
  | [] => []
  | .jundefined :: rest => "" :: joinParts rest
  | .jnull :: rest => "" :: joinParts rest
  | v :: rest => v.toKeyString :: joinParts rest
end

/-- Whitespace for JavaScript string trimming. -/
def isWsChar (c : Char) : Bool :=
  c == ' ' || c == '\t' || c == '\n' || c == '\r'

/-- Decimal digit value of a character, if it is a digit. -/
def digitVal (c : Char) : Option Nat :=
  let n := c.toNat
  if 48 ≤ n ∧ n ≤ 57 then some (n - 48) else none

/-- Parse a non-empty all-digit character list as a natural number. -/
def parseNat : List Char → Option Nat
  | [] => none
  | cs => parseNatGo cs 0
where
  parseNatGo : List Char → Nat → Option Nat
    | [], acc => some acc
    | c :: rest, acc =>
      match digitVal c with
      | some d => parseNatGo rest (acc * 10 + d)
      | none => none

/-- Array member access by string key: `"length"` and canonical numeric
indices resolve, everything else is `undefined`. -/
def arrKey (xs : List JVal) (k : String) : JVal :=
  if k = "length" then .jnum xs.length
  else
    match parseNat k.data with
    | some i => if toString i = k then xs.getD i .jundefined else .jundefined
    | none => .jundefined

/-- String member access by string key: `"length"` and canonical numeric
indices (single-character strings) resolve, everything else is
`undefined`. -/
def strKey (s : String) (k : String) : JVal :=
  if k = "length" then .jnum s.data.length
  else
    match parseNat k.data with
    | some i =>
      if toString i = k then
        match s.data.get? i with
        | some c => .jstr (String.mk [c])
        | none => .jundefined
      else .jundefined
    | none => .jundefined

/-- JavaScript member access `v[k]` (for values on which it does not
throw): objects, arrays and strings have properties, other primitives
yield `undefined`. -/
def JVal.getMember : JVal → String → JVal
  | .jobj es, k => lookupEntry es k
  | .jarr xs, k => arrKey xs k
  | .jstr s, k => strKey s k
  | _, _ => .jundefined

/-- Optional-chained member access `v?.[k]` / `v?.k`. -/
def JVal.optMember (v : JVal) (k : String) : JVal :=
  match v with
  | .jundefined => .jundefined
  | .jnull => .jundefined
  | x => x.getMember k

/-- Numeric index access `v[i]`. -/
def JVal.idx (v : JVal) (i : Nat) : JVal := v.getMember (toString i)

/-- Optional-chained numeric index access `v?.[i]`. -/
def JVal.optIdx (v : JVal) (i : Nat) : JVal :=
  match v with
  | .jundefined => .jundefined
  | .jnull => .jundefined
  | x => x.idx i

/-- Nullish coalescing `v ?? d`. -/
def JVal.coalesce (v d : JVal) : JVal :=
  match v with
  | .jundefined => d
  | .jnull => d
  | x => x

/-- JavaScript `a || b`. -/
def jsOr (a b : JVal) : JVal := if a.truthy then a else b

/-- Own enumerable string-keyed properties in order (`for...in` over a plain
object or array, `Object.keys`); primitives other than strings have none,
strings enumerate their indices. -/
def JVal.ownKeys : JVal → List String
  | .jobj es => es.map Prod.fst
  | .jarr xs => (List.range xs.length).map (fun i => toString i)
  | .jstr s => (List.range s.data.length).map (fun i => toString i)
  | _ => []

/-- Trim whitespace from both ends of a character list. -/
def trimChars (cs : List Char) : List Char :=
  ((cs.dropWhile isWsChar).reverse.dropWhile isWsChar).reverse

/-- The integer written by a decimal string, if any (JavaScript `ToNumber`
on strings, restricted to the integer literals this code base produces;
non-numeric strings are NaN, modelled as `none`). -/
def strToNumber (s : String) : Option Int :=
  match trimChars s.data with
  | [] => some 0
  | '-' :: ds => (parseNat ds).map (fun n => -(n : Int))
  | '+' :: ds => (parseNat ds).map (fun n => (n : Int))
  | ds => (parseNat ds).map (fun n => (n : Int))

/-- JavaScript `ToNumber`; `none` is NaN. -/
def JVal.toNumber : JVal → Option Int
  | .jundefined => none
  | .jnull => some 0
  | .jbool b => some (cond b 1 0)
  | .jnum n => some n
  | .jstr s => strToNumber s
  | .jarr xs => strToNumber (JVal.toKeyString (.jarr xs))
  | .jobj es => strToNumber (JVal.toKeyString (.jobj es))

/-- JavaScript `n >= v` for a number `n` (comparisons with NaN are
false). -/
def numGE (n : Int) (v : JVal) : Bool :=
  match v.toNumber with
  | some m => decide (m ≤ n)
  | none => false

/-- JavaScript `n <= v` for a number `n` (comparisons with NaN are
false). -/
def numLE (n : Int) (v : JVal) : Bool :=
  match v.toNumber with
  | some m => decide (n ≤ m)
  | none => false

/-- Assignment `obj[k] = v` on an association list: replaces the value in
place when the key exists, appends otherwise (JavaScript property-creation
order). -/
def assocSet {α : Type} (es : List (String × α)) (k : String) (v : α) :
    List (String × α) :=
  match es with
  | [] => [(k, v)]
  | (k2, v2) :: rest =>
    if k2 = k then (k2, v) :: rest else (k2, v2) :: assocSet rest k v

/-- `s.split("_")` on character lists (JavaScript split with a one-character
separator; the empty string splits to one empty part). -/
def splitOnUnderscore : List Char → List (List Char)
  | [] => [[]]
  | c :: rest =>
    if c = '_' then [] :: splitOnUnderscore rest
    else
      match splitOnUnderscore rest with
      | [] => [[c]]
      | g :: gs => (c :: g) :: gs

/-- `w.charAt(0).toUpperCase() + w.slice(1)`. -/
def titleCaseWord (w : List Char) : String :=
  match w with
  | [] => ""
  | c :: rest => String.mk (c.toUpper :: rest)

/-- `name.split("_").map(w => w.charAt(0).toUpperCase() + w.slice(1)).join(" ")`. -/
def titleCase (s : String) : String :=
  String.intercalate " " ((splitOnUnderscore s.data).map titleCaseWord)

example : titleCase "very_tired" = "Very Tired" := by decide
example : JVal.getMember (.jobj [("a", .jnum 1)]) "b" = .jundefined := rfl
example : JVal.getMember (.jarr [.jstr "x"]) "0" = .jstr "x" := rfl
example : JVal.toKeyString (.jarr [.jnum 1, .jnull, .jstr "a"]) = "1,,a" := by decide
example : strToNumber "  -12 " = some (-12) := by decide

/-!
## `convertSchemaToFields`

Embedding of the module-level helper of
`src/frontend/src/utils/formSchemaBuilder.js` (lines 137-233).  The screen
keeps its own copy (`LogSymptomsScreen.js`, lines 747-852) that differs only
in the `type === "array"` branch; it is embedded separately below as
`convertSchemaToFieldsScreen`.
-/

/-- The `optionType` computation of `convertSchemaToFields`
(formSchemaBuilder.js lines 159-180). -/
def optionTypeOf (os : JVal) : String :=
  let t := os.getMember "type"
  if t.eqStr "integer" || t.eqStr "float" then
    let r := os.getMember "range"
    if r.truthy && !(r.idx 0).isNull && !(r.idx 1).isNull then "rating"
    else "number_input"
  else if t.eqStr "string" then
    if (os.getMember "enum").truthy then "single_choice"
    else if (os.getMember "max_length").truthy then "notes"
    else "text"
  else if t.eqStr "array" then "multiple_choice"
  else if t.eqStr "boolean" then "yes_no"
  else "text"

/-- The `optionType` computation of the screen-local copy
(LogSymptomsScreen.js lines 772-797).  Its `array` branch additionally
tests `optionSchema.items === "string" && optionSchema.enum`, but both
branches of that test produce `"multiple_choice"`. -/
def optionTypeOfScreen (os : JVal) : String :=
  let t := os.getMember "type"
  if t.eqStr "integer" || t.eqStr "float" then
    let r := os.getMember "range"
    if r.truthy && !(r.idx 0).isNull && !(r.idx 1).isNull then "rating"
    else "number_input"
  else if t.eqStr "string" then
    if (os.getMember "enum").truthy then "single_choice"
    else if (os.getMember "max_length").truthy then "notes"
    else "text"
  else if t.eqStr "array" then
    if (os.getMember "items").eqStr "string" && (os.getMember "enum").truthy then
      "multiple_choice"
    else "multiple_choice"
  else if t.eqStr "boolean" then "yes_no"
  else "text"

/-- `optionSchema.labels?.[optionName] || titleCase(optionName)`
(formSchemaBuilder.js lines 185-190). -/
def displayLabelOf (os : JVal) (optionName : String) : JVal :=
  jsOr ((os.getMember "labels").optMember optionName) (.jstr (titleCase optionName))

/-- The option object pushed for one surviving option entry
(formSchemaBuilder.js lines 182-215), parameterised by the computed
`option_type` so the same builder serves both copies of the function. -/
def buildOptionWith (t : String) (fieldName optionName : String) (os : JVal) (ord : Nat) : JVal :=
  let base : List (String × JVal) :=
    [("id", .jstr (fieldName ++ "_" ++ optionName)),
     ("option_name", .jstr optionName),
     ("display_label", displayLabelOf os optionName),
     ("option_type", .jstr t),
     ("option_order", .jnum ord),
     ("optional", jsOr (os.getMember "optional") (.jbool false))]
  let extra : List (String × JVal) :=
    if t = "rating" || t = "number_input" then
      [("min_value", ((os.getMember "range").optIdx 0).coalesce (.jnum 0)),
       ("max_value", ((os.getMember "range").optIdx 1).coalesce (.jnum 10)),
       ("labels", jsOr (os.getMember "labels") (.jobj []))]
    else if t = "single_choice" || t = "multiple_choice" then
      [("choices", jsOr (os.getMember "enum") (.jarr [])),
       ("choice_labels", jsOr (os.getMember "labels") (.jobj []))]
    else if t = "text" || t = "notes" then
      [("max_length", os.getMember "max_length"),
       ("placeholder", os.getMember "placeholder")]
    else []
  .jobj (base ++ extra)

/-- The option object built by the module copy. -/
def buildOption (fieldName optionName : String) (os : JVal) (ord : Nat) : JVal :=
  buildOptionWith (optionTypeOf os) fieldName optionName os ord

/-- The option object built by the screen copy. -/
def buildOptionScreen (fieldName optionName : String) (os : JVal) (ord : Nat) : JVal :=
  buildOptionWith (optionTypeOfScreen os) fieldName optionName os ord

/-- The inner `for (const optionName in fieldSchema)` loop
(formSchemaBuilder.js lines 155-216): entries that are not non-null objects
are skipped without advancing `optionOrder`. -/
def convertOptionsGo (fieldSchema : JVal) (fieldName : String) :
    List String → Nat → List JVal
  | [], _ => []
  | optionName :: rest, ord =>
    let os := fieldSchema.getMember optionName
    if os.truthy && (os.typeof == "object") then
      buildOption fieldName optionName os ord ::
        convertOptionsGo fieldSchema fieldName rest (ord + 1)
    else convertOptionsGo fieldSchema fieldName rest ord

/-- The field object pushed for a field with at least one option
(formSchemaBuilder.js lines 218-229). -/
def buildField (groupName fieldName : String) (options : List JVal) : JVal :=
  .jobj [("id", .jstr (groupName ++ "_" ++ fieldName)),
         ("field_name", .jstr fieldName),
         ("display_label", .jstr (titleCase fieldName)),
         ("field_group", .jstr groupName),
         ("options", .jarr options)]

/-- The outer `for (const fieldName in schemaObj)` loop
(formSchemaBuilder.js lines 148-230). -/
def convertFieldsGo (schemaObj : JVal) (groupName : String) :
    List String → List JVal
  | [] => []
  | fieldName :: rest =>
    let fieldSchema := schemaObj.getMember fieldName
    if fieldSchema.truthy && (fieldSchema.typeof == "object") then
      let options := convertOptionsGo fieldSchema fieldName fieldSchema.ownKeys 0
      if options.length > 0 then
        buildField groupName fieldName options :: convertFieldsGo schemaObj groupName rest
      else convertFieldsGo schemaObj groupName rest
    else convertFieldsGo schemaObj groupName rest

/-- `convertSchemaToFields` of formSchemaBuilder.js (lines 137-233). -/
def convertSchemaToFields (schemaObj : JVal) (groupName : String) : List JVal :=
  if !schemaObj.truthy || !(schemaObj.typeof == "object") || schemaObj.isArray then []
  else convertFieldsGo schemaObj groupName schemaObj.ownKeys

/-- Screen copy: inner option loop using the screen's `optionType`
computation (LogSymptomsScreen.js lines 767-835). -/
def convertOptionsGoScreen (fieldSchema : JVal) (fieldName : String) :
    List String → Nat → List JVal
  | [], _ => []
  | optionName :: rest, ord =>
    let os := fieldSchema.getMember optionName
    if os.truthy && (os.typeof == "object") then
      buildOptionScreen fieldName optionName os ord ::
        convertOptionsGoScreen fieldSchema fieldName rest (ord + 1)
    else convertOptionsGoScreen fieldSchema fieldName rest ord

/-- Screen copy: outer field loop (LogSymptomsScreen.js lines 759-850). -/
def convertFieldsGoScreen (schemaObj : JVal) (groupName : String) :
    List String → List JVal
  | [] => []
  | fieldName :: rest =>
    let fieldSchema := schemaObj.getMember fieldName
    if fieldSchema.truthy && (fieldSchema.typeof == "object") then
      let options := convertOptionsGoScreen fieldSchema fieldName fieldSchema.ownKeys 0
      if options.length > 0 then
        buildField groupName fieldName options ::
          convertFieldsGoScreen schemaObj groupName rest
      else convertFieldsGoScreen schemaObj groupName rest
    else convertFieldsGoScreen schemaObj groupName rest

/-- The screen-local `convertSchemaToFields` (LogSymptomsScreen.js lines
747-852). -/
def convertSchemaToFieldsScreen (schemaObj : JVal) (groupName : String) : List JVal :=
  if !schemaObj.truthy || !(schemaObj.typeof == "object") || schemaObj.isArray then []
  else convertFieldsGoScreen schemaObj groupName schemaObj.ownKeys

/-!
## `buildZodSchema`

Embedding of `buildZodSchema` (formSchemaBuilder.js lines 8-131).  The zod
validator built for one option is represented by `ZOption`, recording the
schema family chosen by the `switch` on `option.option_type` together with
the option properties the attached `refine` closure reads.  The refine
closures read those properties from the option object at validation time;
the option objects are not mutated after `buildZodSchema` returns, so
capturing the property values at build time is equivalent.

`ZOption.accepts` gives the validation semantics of the built validator:
`some true` / `some false` for accept / reject, and `none` when the refine
callback would throw a `TypeError` (calling `.includes` on a `choices`
value that is neither an array, a string, `null` nor `undefined`).
Refinements in zod run only after the wrapped schema has accepted the
value, and `.nullable().optional()` admit `null` and `undefined` before the
refinement, whose body then returns `true` for them.

`buildZodSchema` itself returns `none` when the source would throw: the
loop body at line 37 reads `option.option_name` without a null check, so a
`null` (or `undefined`) entry in a field's `options` array raises a
`TypeError`.
-/

/-- The zod validator built for one option by the `switch` at
formSchemaBuilder.js lines 41-117. -/
inductive ZOption where
  | numRange (minv maxv : JVal) : ZOption
  | textMax (maxLen : JVal) : ZOption
  | yesNo : ZOption
  | singleChoice (choices : JVal) : ZOption
  | multiChoice (choices : JVal) : ZOption
  | anyVal : ZOption

/-- The validator chosen for an option object: `switch (option.option_type)`
with the properties its refine closure reads. -/
def zOptionOf (option : JVal) : ZOption :=
  let t := option.getMember "option_type"
  if t.eqStr "rating" || t.eqStr "number_input" then
    .numRange (option.getMember "min_value") (option.getMember "max_value")
  else if t.eqStr "text" || t.eqStr "notes" then
    .textMax (option.getMember "max_length")
  else if t.eqStr "yes_no" then .yesNo
  else if t.eqStr "single_choice" then .singleChoice (option.getMember "choices")
  else if t.eqStr "multiple_choice" then .multiChoice (option.getMember "choices")
  else .anyVal

/-- `choices?.includes(v) ?? true` for a string value `v`: arrays test
membership under strict equality, strings test substring containment,
`null`/`undefined` short-circuit to `undefined` so the `??` yields `true`,
and any other value has no callable `.includes`, a `TypeError` (`none`). -/
def includesCheck (choices : JVal) (s : String) : Option Bool :=
  match choices with
  | .jundefined => some true
  | .jnull => some true
  | .jarr xs => some (xs.any (fun x => x.eqStr s))
  | .jstr c => some (List.range (c.data.length + 1) |>.any
      (fun i => s.data.isPrefixOf (c.data.drop i)))
  | _ => none

/-- `val.every(v => option.choices?.includes(v) ?? true)` over the elements
of a multiple-choice value (all of which `z.array(z.string())` has already
checked to be strings); `every` short-circuits at the first `false`. -/
def allIncludes (choices : JVal) : List JVal → Option Bool
  | [] => some true
  | v :: rest =>
    match v with
    | .jstr s =>
      match includesCheck choices s with
      | none => none
      | some false => some false
      | some true => allIncludes choices rest
    | _ => some false

/-- Whether a value is a string. -/
def JVal.isStr : JVal → Bool
  | .jstr _ => true
  | _ => false

/-- Validation semantics of a built option validator (see the section
comment above for the `Option Bool` reading). -/
def ZOption.accepts : ZOption → JVal → Option Bool
  | .numRange minv maxv, v =>
    match v with
    | .jundefined => some true
    | .jnull => some true
    | .jnum n =>
      some (numGE n (minv.coalesce (.jnum 0)) && numLE n (maxv.coalesce (.jnum 10)))
    | _ => some false
  | .textMax ml, v =>
    match v with
    | .jundefined => some true
    | .jnull => some true
    | .jstr s =>
      if s = "" then some true
      else if ml.truthy then some (numLE s.data.length ml)
      else some true
    | _ => some false
  | .yesNo, v =>
    match v with
    | .jundefined => some true
    | .jnull => some true
    | .jbool _ => some true
    | _ => some false
  | .singleChoice ch, v =>
    match v with
    | .jundefined => some true
    | .jnull => some true
    | .jstr s => if s = "" then some true else includesCheck ch s
    | _ => some false
  | .multiChoice ch, v =>
    match v with
    | .jundefined => some true
    | .jnull => some true
    | .jarr xs =>
      if xs.all JVal.isStr then
        if xs.isEmpty then some true else allIncludes ch xs
      else some false
    | _ => some false
  | .anyVal, _ => some true

/-- The per-field schema `z.object(fieldSchema).optional()` built at
formSchemaBuilder.js line 125; `isOptional` records the trailing
`.optional()`. -/
structure ZField where
  isOptional : Bool
  entries : List (String × ZOption)

/-- The top-level `z.object(schemaShape)` shape: one entry per surviving
field, in property-creation order. -/
abbrev ZShape := List (String × ZField)

/-- The `for (const option of field.options)` loop (formSchemaBuilder.js
lines 36-120) threading the `fieldSchema` accumulator; a `null` or
`undefined` entry makes `option.option_name` throw (`none`). -/
def processOptions : List JVal → List (String × ZOption) →
    Option (List (String × ZOption))
  | [], acc => some acc
  | o :: rest, acc =>
    if o.isNull || o.isUndef then none
    else
      let nameV := o.getMember "option_name"
      if nameV.truthy then
        processOptions rest (assocSet acc nameV.toKeyString (zOptionOf o))
      else processOptions rest acc

/-- The `for (const field of fieldsToProcess)` loop (formSchemaBuilder.js
lines 29-127) threading the `schemaShape` accumulator. -/
def processFields : List JVal → ZShape → Option ZShape
  | [], shape => some shape
  | f :: rest, shape =>
    if f.truthy && (f.getMember "field_name").truthy then
      let fieldSchema? :=
        match f.getMember "options" with
        | .jarr opts => processOptions opts []
        | _ => some []
      match fieldSchema? with
      | none => none
      | some fs =>
        if fs.length > 0 then
          processFields rest
            (assocSet shape (f.getMember "field_name").toKeyString ⟨true, fs⟩)
        else processFields rest shape
    else processFields rest shape

/-- The `fieldsToProcess` selection for one group (formSchemaBuilder.js
lines 20-26): arrays are used as-is, other truthy objects go through
`convertSchemaToFields`, everything else contributes nothing. -/
def groupFieldsOf (fg : JVal) (groupName : String) : List JVal :=
  match fg.getMember groupName with
  | .jarr fs => fs
  | g => if g.truthy && (g.typeof == "object") then convertSchemaToFields g groupName
         else []

/-- The `for (const groupName in formSchema.fieldGroups)` loop
(formSchemaBuilder.js lines 16-128). -/
def goGroups (fg : JVal) : List String → ZShape → Option ZShape
  | [], shape => some shape
  | g :: rest, shape =>
    match processFields (groupFieldsOf fg g) shape with
    | none => none
    | some shape2 => goGroups fg rest shape2

/-- `buildZodSchema` of formSchemaBuilder.js (lines 8-131); `none` when the
call would throw a `TypeError`. -/
def buildZodSchema (formSchema : JVal) : Option ZShape :=
  let fg := formSchema.optMember "fieldGroups"
  if !fg.truthy then some []
  else goGroups fg fg.ownKeys []

/-!
## `loadFormSchema` failure path and `onSubmit` payload formatting

Embedding of the `catch` block of `loadFormSchema`
(LogSymptomsScreen.js lines 87-119, and the identical second copy at lines
921-952) and of the payload formatting of the submit handler `onSubmit`
(lines 1009-1028).
-/

/-- The slice of screen state the `loadFormSchema` failure path can touch:
the `loading` flag and the `formSchema` state (initially `null`,
`JVal.jnull`). -/
structure ScreenState where
  loading : Bool
  formSchema : JVal

/-- An HTTP error response attached to a thrown request error:
`error.response.status` and `error.response.data`. -/
structure ErrResponse where
  status : JVal
  data : JVal

/-- A thrown request error: `error.response` is absent for network errors,
`error.message` is the error message. -/
structure JsError where
  response : Option ErrResponse
  message : JVal

/-- The alert raised by `Alert.alert(title, message, buttons)`, with the
button labels in order. -/
structure AlertSpec where
  title : String
  message : JVal
  buttons : List String

/-- The `catch` block of `loadFormSchema` (LogSymptomsScreen.js lines
87-119): sets `loading` to `false`, leaves `formSchema` untouched, and
raises the retry alert unless the error carries a response whose status is
exactly 500. -/
def loadFormSchemaCatch (st : ScreenState) (e : JsError) :
    ScreenState × Option AlertSpec :=
  let st1 : ScreenState := { loading := false, formSchema := st.formSchema }
  let raise : Bool :=
    match e.response with
    | none => true
    | some r => !(r.status.eqNum 500)
  if raise then
    let fallback : JVal := .jstr "Failed to load form. Please try again."
    let msg := jsOr (jsOr (match e.response with
                           | none => .jundefined
                           | some r => r.data.optMember "error") e.message) fallback
    (st1, some { title := "Error Loading Form", message := msg,
                 buttons := ["Retry", "Go Back"] })
  else (st1, none)

/-- `loadFormSchema` when the awaited `getFormSchema` call rejects: the
`try` block has executed `setLoading(true)` and nothing else that touches
state, then control moves to the `catch` block. -/
def loadFormSchemaOnFetchFailure (st : ScreenState) (e : JsError) :
    ScreenState × Option AlertSpec :=
  loadFormSchemaCatch { loading := true, formSchema := st.formSchema } e

/-- The filter applied to each option value by the submit handler
(LogSymptomsScreen.js line 1017):
`value !== null && value !== undefined && value !== ""`. -/
def keepSubmitValue (v : JVal) : Bool :=
  !v.isNull && !v.isUndef && !(v.eqStr "")

/-- The inner `Object.keys(fieldData).forEach` of `onSubmit`
(LogSymptomsScreen.js lines 1015-1024) threading the `formattedData`
accumulator. -/
def submitOptionsGo (fieldData : JVal) (fieldKey : String) :
    List String → List (String × JVal) → List (String × JVal)
  | [], acc => acc
  | ok :: rest, acc =>
    let v := fieldData.getMember ok
    if keepSubmitValue v then
      let cur := lookupEntry acc fieldKey
      let curObj := if !cur.truthy then JVal.jobj [] else cur
      let newObj :=
        match curObj with
        | .jobj es => JVal.jobj (assocSet es ok v)
        | x => x
      submitOptionsGo fieldData fieldKey rest (assocSet acc fieldKey newObj)
    else submitOptionsGo fieldData fieldKey rest acc

/-- The outer `Object.keys(data).forEach` of `onSubmit`
(LogSymptomsScreen.js lines 1011-1024): non-object field data is skipped
entirely. -/
def submitFieldsGo (data : JVal) : List String → List (String × JVal) →
    List (String × JVal)
  | [], acc => acc
  | k :: rest, acc =>
    let fd := data.getMember k
    if fd.truthy && (fd.typeof == "object") then
      submitFieldsGo data rest (submitOptionsGo fd k fd.ownKeys acc)
    else submitFieldsGo data rest acc

/-- The `formattedData` object sent as the request payload's `data` by
`onSubmit` (LogSymptomsScreen.js lines 1009-1028). -/
def formatSubmitData (data : JVal) : JVal :=
  .jobj (submitFieldsGo data data.ownKeys [])

/-!
## Characterizations used to state the claims

The following definitions are not translations of source code; they spell
out, over the embedded data, the shapes the specification claims the source
produces.  The theorems below connect them to the embedded functions.
-/

/-- The elements of a field's `options` property when it is an array,
`[]` otherwise (used to phrase hypotheses decidably). -/
def optionsListOf (f : JVal) : List JVal :=
  match f.getMember "options" with
  | .jarr l => l
  | _ => []

/-- All fields contributed by all groups of a `fieldGroups` value, in group
and field order. -/
def collectFields (fg : JVal) : List JVal :=
  (fg.ownKeys.map (groupFieldsOf fg)).flatten

/-- Claimed nested entries for one options array: one entry per option with
a truthy `option_name`, keyed by that name, carrying the option's
validator. -/
def specOptionEntries (opts : List JVal) : List (String × ZOption) :=
  opts.filterMap (fun o =>
    let nv := o.getMember "option_name"
    if nv.truthy then some (nv.toKeyString, zOptionOf o) else none)

/-- Claimed top-level entry for one field: present exactly when the field
is truthy, has a truthy `field_name`, and its `options` array yields at
least one nested entry; keyed by the field name and optional. -/
def specFieldEntry (f : JVal) : Option (String × ZField) :=
  if f.truthy && (f.getMember "field_name").truthy then
    match f.getMember "options" with
    | .jarr opts =>
      let ks := specOptionEntries opts
      if ks.isEmpty then none
      else some ((f.getMember "field_name").toKeyString, ⟨true, ks⟩)
    | _ => none
  else none

/-- Bridge: the strict string test succeeds exactly on that string. -/
theorem JVal.eqStr_iff {v : JVal} {s : String} : v.eqStr s = true ↔ v = .jstr s := by
  cases v <;> simp [JVal.eqStr]

/-- Bridge: the null test fails exactly off `null`. -/
theorem JVal.isNull_false_iff {v : JVal} : v.isNull = false ↔ v ≠ .jnull := by
  cases v <;> simp [JVal.isNull]

/-!
## Claims
-/

/-- **C4.** `buildZodSchema` and `convertSchemaToFields` are stateless and
pure: two calls on equal inputs return equal results.  In this embedding
both are functions of their argument value alone, which is faithful to the
source because neither function reads anything outside its arguments nor
writes through them: every assignment in formSchemaBuilder.js lines 8-233
targets an object allocated inside the call (`schemaShape`, `fieldSchema`,
`fields`, `options`, `option`), so the argument object is never mutated. -/
theorem formSchemaBuilder_functions_deterministic
    (a b : JVal) (g : String) (h : a = b) :
    buildZodSchema a = buildZodSchema b ∧
      convertSchemaToFields a g = convertSchemaToFields b g := by
  subst h; exact ⟨rfl, rfl⟩

/-- Witness for C4 at a concrete schema. -/
theorem formSchemaBuilder_functions_deterministic_instance :
    buildZodSchema (.jobj [("fieldGroups", .jobj [])]) =
        buildZodSchema (.jobj [("fieldGroups", .jobj [])]) ∧
      convertSchemaToFields (.jobj [("fieldGroups", .jobj [])]) "g" =
        convertSchemaToFields (.jobj [("fieldGroups", .jobj [])]) "g" :=
  formSchemaBuilder_functions_deterministic _ _ "g" rfl

/-- **C7.** When the form-schema fetch inside `loadFormSchema` rejects, the
screen ends with `loading = false` and `formSchema` unchanged (in
particular still `null` when it was `null`), and an alert titled
"Error Loading Form" with a Retry and a Go Back button is raised exactly
when the error carries no HTTP response or its response status differs
from 500. -/
theorem loadFormSchema_failure_behavior (st : ScreenState) (e : JsError) :
    (loadFormSchemaOnFetchFailure st e).1.loading = false ∧
    (loadFormSchemaOnFetchFailure st e).1.formSchema = st.formSchema ∧
    (loadFormSchemaOnFetchFailure st e).2.map (fun a => (a.title, a.buttons)) =
      (if (match e.response with
           | none => true
           | some r => !(r.status.eqNum 500)) = true
       then some ("Error Loading Form", ["Retry", "Go Back"])
       else none) := by
  unfold loadFormSchemaOnFetchFailure loadFormSchemaCatch
  rcases e with ⟨resp, msg⟩
  cases resp with
  | none => simp
  | some r =>
    by_cases h : r.status.eqNum 500 = true <;> simp [h]

/-- Witness for C7: a 500 response raises no alert, the state still ends
non-loading with `formSchema` untouched. -/
theorem loadFormSchema_failure_behavior_instance :
    (loadFormSchemaOnFetchFailure ⟨true, .jnull⟩
        ⟨some ⟨.jnum 500, .jobj []⟩, .jstr "boom"⟩).1.loading = false ∧
    (loadFormSchemaOnFetchFailure ⟨true, .jnull⟩
        ⟨some ⟨.jnum 500, .jobj []⟩, .jstr "boom"⟩).1.formSchema = .jnull ∧
    (loadFormSchemaOnFetchFailure ⟨true, .jnull⟩
        ⟨some ⟨.jnum 500, .jobj []⟩, .jstr "boom"⟩).2.map
        (fun a => (a.title, a.buttons)) =
      (if (match (some (ErrResponse.mk (.jnum 500) (.jobj [])) : Option ErrResponse) with
           | none => true
           | some r => !(r.status.eqNum 500)) = true
       then some ("Error Loading Form", ["Retry", "Go Back"])
       else none) :=
  loadFormSchema_failure_behavior ⟨true, .jnull⟩ ⟨some ⟨.jnum 500, .jobj []⟩, .jstr "boom"⟩

/-- The two `optionType` computations agree: the screen copy's extra test
on `optionSchema.items` selects between two identical branches. -/
theorem optionTypeOfScreen_eq (os : JVal) : optionTypeOfScreen os = optionTypeOf os := by
  simp only [optionTypeOfScreen, optionTypeOf, ite_self]

/-- The two option builders agree. -/
theorem buildOptionScreen_eq (f n : String) (os : JVal) (ord : Nat) :
    buildOptionScreen f n os ord = buildOption f n os ord := by
  unfold buildOptionScreen buildOption
  rw [optionTypeOfScreen_eq]

/-- The two option loops agree. -/
theorem convertOptionsGoScreen_eq (fs : JVal) (fn : String) :
    ∀ (keys : List String) (ord : Nat),
      convertOptionsGoScreen fs fn keys ord = convertOptionsGo fs fn keys ord := by
  intro keys
  induction keys with
  | nil => intro ord; rfl
  | cons k rest ih =>
    intro ord
    simp only [convertOptionsGoScreen, convertOptionsGo, buildOptionScreen_eq, ih]

/-- The two field loops agree. -/
theorem convertFieldsGoScreen_eq (so : JVal) (gn : String) :
    ∀ keys : List String,
      convertFieldsGoScreen so gn keys = convertFieldsGo so gn keys := by
  intro keys
  induction keys with
  | nil => rfl
  | cons k rest ih =>
    simp only [convertFieldsGoScreen, convertFieldsGo, convertOptionsGoScreen_eq, ih]

/-- **C8.** The module-level `convertSchemaToFields` of formSchemaBuilder.js
and the screen-local copy in LogSymptomsScreen.js return equal field lists
on every input: the screen copy's extra `optionSchema.items` test for array
types is redundant because both of its branches yield
`"multiple_choice"`. -/
theorem convertSchemaToFields_copies_agree (schemaObj : JVal) (groupName : String) :
    convertSchemaToFieldsScreen schemaObj groupName =
      convertSchemaToFields schemaObj groupName := by
  unfold convertSchemaToFieldsScreen convertSchemaToFields
  simp only [convertFieldsGoScreen_eq]

/-- Witness for C8 on a schema whose array option exercises the divergent
branch. -/
theorem convertSchemaToFields_copies_agree_instance :
    convertSchemaToFieldsScreen
        (.jobj [("mood", .jobj [("tags",
          .jobj [("type", .jstr "array"), ("items", .jstr "string"),
                 ("enum", .jarr [.jstr "calm"])])])]) "daily" =
      convertSchemaToFields
        (.jobj [("mood", .jobj [("tags",
          .jobj [("type", .jstr "array"), ("items", .jstr "string"),
                 ("enum", .jarr [.jstr "calm"])])])]) "daily" :=
  convertSchemaToFields_copies_agree _ _

/-- **C9.** `buildZodSchema` returns the empty object schema, without
throwing, on `null`, `undefined`, and any object lacking a (truthy)
`fieldGroups` property; `convertSchemaToFields` returns the empty list on
every argument that is `null`, not an object, or an array. -/
theorem formSchemaBuilder_degenerate_inputs :
    buildZodSchema .jnull = some [] ∧
    buildZodSchema .jundefined = some [] ∧
    (∀ es : List (String × JVal), lookupEntry es "fieldGroups" = .jundefined →
      buildZodSchema (.jobj es) = some []) ∧
    (∀ (v : JVal) (g : String),
      v = .jnull ∨ v.typeof ≠ "object" ∨ v.isArray = true →
      convertSchemaToFields v g = []) := by
  refine ⟨rfl, rfl, ?_, ?_⟩
  · intro es h
    simp [buildZodSchema, JVal.optMember, JVal.getMember, h, JVal.truthy]
  · intro v g h
    rcases h with h | h | h
    · subst h; rfl
    · cases v <;> simp_all [JVal.typeof, convertSchemaToFields, JVal.truthy,
        JVal.isArray]
    · cases v <;> simp_all [JVal.isArray, convertSchemaToFields, JVal.typeof,
        JVal.truthy]

/-- Witness for C9: an object without `fieldGroups` and a non-object
conversion argument. -/
theorem formSchemaBuilder_degenerate_inputs_instance :
    buildZodSchema (.jobj [("other", .jnum 1)]) = some [] ∧
    convertSchemaToFields (.jnum 7) "g" = [] :=
  ⟨formSchemaBuilder_degenerate_inputs.2.2.1 [("other", .jnum 1)] rfl,
   formSchemaBuilder_degenerate_inputs.2.2.2 (.jnum 7) "g"
     (Or.inr (Or.inl (by simp [JVal.typeof])))⟩

/-- Bridge: the strict string test fails exactly off that string. -/
theorem JVal.eqStr_eq_false {v : JVal} {s : String} :
    v.eqStr s = false ↔ v ≠ .jstr s := by
  rw [Bool.eq_false_iff, Ne, Ne, JVal.eqStr_iff]

/-- The option object records the computed `option_type` under the
`"option_type"` key. -/
theorem buildOptionWith_option_type (t f n : String) (os : JVal) (ord : Nat) :
    (buildOptionWith t f n os ord).getMember "option_type" = .jstr t := rfl

/-- **C1.** For every option entry that is a non-null object,
`convertSchemaToFields` assigns `option_type` as follows: type `integer` or
`float` with a range whose first and second entries are both non-null gives
`rating`, otherwise `number_input`; type `string` with an enum gives
`single_choice`, without an enum `notes` when `max_length` is set and
`text` otherwise; type `array` gives `multiple_choice`; type `boolean`
gives `yes_no`; any other or missing type gives `text`.  ("Has a range" /
"has an enum" / "max_length is set" are JavaScript truthiness, and
"non-null" is strict inequality with `null`, as in the source
conditions.) -/
theorem convertSchemaToFields_option_type_mapping
    (f n : String) (os : JVal) (ord : Nat)
    (hobj : os.truthy = true ∧ os.typeof = "object") :
    ((os.getMember "type" = .jstr "integer" ∨ os.getMember "type" = .jstr "float") →
      (((os.getMember "range").truthy = true ∧
        (os.getMember "range").idx 0 ≠ .jnull ∧
        (os.getMember "range").idx 1 ≠ .jnull) →
        (buildOption f n os ord).getMember "option_type" = .jstr "rating") ∧
      (¬((os.getMember "range").truthy = true ∧
         (os.getMember "range").idx 0 ≠ .jnull ∧
         (os.getMember "range").idx 1 ≠ .jnull) →
        (buildOption f n os ord).getMember "option_type" = .jstr "number_input")) ∧
    (os.getMember "type" = .jstr "string" →
      ((os.getMember "enum").truthy = true →
        (buildOption f n os ord).getMember "option_type" = .jstr "single_choice") ∧
      ((os.getMember "enum").truthy = false →
        ((os.getMember "max_length").truthy = true →
          (buildOption f n os ord).getMember "option_type" = .jstr "notes") ∧
        ((os.getMember "max_length").truthy = false →
          (buildOption f n os ord).getMember "option_type" = .jstr "text"))) ∧
    (os.getMember "type" = .jstr "array" →
      (buildOption f n os ord).getMember "option_type" = .jstr "multiple_choice") ∧
    (os.getMember "type" = .jstr "boolean" →
      (buildOption f n os ord).getMember "option_type" = .jstr "yes_no") ∧
    ((os.getMember "type" ≠ .jstr "integer" ∧ os.getMember "type" ≠ .jstr "float" ∧
      os.getMember "type" ≠ .jstr "string" ∧ os.getMember "type" ≠ .jstr "array" ∧
      os.getMember "type" ≠ .jstr "boolean") →
      (buildOption f n os ord).getMember "option_type" = .jstr "text") := by
  have hb : (buildOption f n os ord).getMember "option_type" = .jstr (optionTypeOf os) :=
    buildOptionWith_option_type _ f n os ord
  refine ⟨?_, ?_, ?_, ?_, ?_⟩
  · intro ht
    constructor
    · rintro ⟨h1, h2, h3⟩
      rw [hb]
      unfold optionTypeOf
      rcases ht with h | h <;>
        simp [h, JVal.eqStr, h1, JVal.isNull_false_iff.mpr h2, JVal.isNull_false_iff.mpr h3]
    · intro hneg
      rw [hb]
      unfold optionTypeOf
      have hcond : ((os.getMember "range").truthy &&
          !(JVal.idx (os.getMember "range") 0).isNull &&
          !(JVal.idx (os.getMember "range") 1).isNull) = false := by
        cases hc : ((os.getMember "range").truthy &&
            !(JVal.idx (os.getMember "range") 0).isNull &&
            !(JVal.idx (os.getMember "range") 1).isNull) with
        | false => rfl
        | true =>
          simp only [Bool.and_eq_true, Bool.not_eq_true'] at hc
          exact absurd ⟨hc.1.1, JVal.isNull_false_iff.mp hc.1.2,
            JVal.isNull_false_iff.mp hc.2⟩ hneg
      rcases ht with h | h <;> simp [h, JVal.eqStr, hcond]
  · intro h
    constructor
    · intro he
      rw [hb]; unfold optionTypeOf
      simp [h, JVal.eqStr, he]
    · intro he
      constructor
      · intro hl
        rw [hb]; unfold optionTypeOf
        simp [h, JVal.eqStr, he, hl]
      · intro hl
        rw [hb]; unfold optionTypeOf
        simp [h, JVal.eqStr, he, hl]
  · intro h
    rw [hb]; unfold optionTypeOf
    simp [h, JVal.eqStr]
  · intro h
    rw [hb]; unfold optionTypeOf
    simp [h, JVal.eqStr]
  · rintro ⟨h1, h2, h3, h4, h5⟩
    rw [hb]; unfold optionTypeOf
    simp [JVal.eqStr_eq_false.mpr h1, JVal.eqStr_eq_false.mpr h2,
      JVal.eqStr_eq_false.mpr h3, JVal.eqStr_eq_false.mpr h4,
      JVal.eqStr_eq_false.mpr h5]

/-- Witness for C1: a boolean option schema maps to `yes_no`. -/
theorem convertSchemaToFields_option_type_mapping_instance :
    (buildOption "sleep" "well_rested" (.jobj [("type", .jstr "boolean")]) 0).getMember
        "option_type" = .jstr "yes_no" :=
  (convertSchemaToFields_option_type_mapping "sleep" "well_rested"
    (.jobj [("type", .jstr "boolean")]) 0 ⟨rfl, rfl⟩).2.2.2.1 rfl

/-- **C2.** For every option with `option_type` `rating` or `number_input`,
the validator built by `buildZodSchema` accepts a numeric value `v` exactly
when `min ≤ v ≤ max`, where `min` is the option's `min_value` (0 when
absent, i.e. `undefined` or `null`) and `max` is the option's `max_value`
(10 when absent); `null` and `undefined` values are always accepted. -/
theorem buildZodSchema_number_range_validation (opt : JVal) (mn mx : Int)
    (ht : opt.getMember "option_type" = .jstr "rating" ∨
          opt.getMember "option_type" = .jstr "number_input")
    (hmn : opt.getMember "min_value" = .jnum mn ∨
           ((opt.getMember "min_value" = .jundefined ∨ opt.getMember "min_value" = .jnull) ∧
            mn = 0))
    (hmx : opt.getMember "max_value" = .jnum mx ∨
           ((opt.getMember "max_value" = .jundefined ∨ opt.getMember "max_value" = .jnull) ∧
            mx = 10)) :
    (∀ v : Int, (zOptionOf opt).accepts (.jnum v) = some (decide (mn ≤ v ∧ v ≤ mx))) ∧
    (zOptionOf opt).accepts .jnull = some true ∧
    (zOptionOf opt).accepts .jundefined = some true := by
  have hz : zOptionOf opt =
      .numRange (opt.getMember "min_value") (opt.getMember "max_value") := by
    unfold zOptionOf
    rcases ht with h | h <;> simp [h, JVal.eqStr]
  have hmn' : (opt.getMember "min_value").coalesce (.jnum 0) = .jnum mn := by
    rcases hmn with h | ⟨h, h0⟩
    · rw [h]; rfl
    · subst h0; rcases h with h | h <;> rw [h] <;> rfl
  have hmx' : (opt.getMember "max_value").coalesce (.jnum 10) = .jnum mx := by
    rcases hmx with h | ⟨h, h0⟩
    · rw [h]; rfl
    · subst h0; rcases h with h | h <;> rw [h] <;> rfl
  refine ⟨?_, by rw [hz]; rfl, by rw [hz]; rfl⟩
  intro v
  rw [hz]
  simp [ZOption.accepts, hmn', hmx', numGE, numLE, JVal.toNumber, Bool.decide_and]

/-- Witness for C2: 5 lies in the explicit range 2..8. -/
theorem buildZodSchema_number_range_validation_instance :
    (zOptionOf (.jobj [("option_type", .jstr "rating"), ("min_value", .jnum 2),
        ("max_value", .jnum 8)])).accepts (.jnum 5) =
      some (decide ((2 : Int) ≤ 5 ∧ (5 : Int) ≤ 8)) :=
  (buildZodSchema_number_range_validation
    (.jobj [("option_type", .jstr "rating"), ("min_value", .jnum 2),
        ("max_value", .jnum 8)]) 2 8
    (Or.inl rfl) (Or.inl rfl) (Or.inl rfl)).1 5

/-- `every` over string elements against an array of choices is the
conjunction of the membership tests. -/
theorem allIncludes_arr (cs : List JVal) (ss : List String) :
    allIncludes (.jarr cs) (ss.map JVal.jstr) =
      some (ss.all (fun s => cs.any (fun x => x.eqStr s))) := by
  induction ss with
  | nil => rfl
  | cons s rest ih =>
    simp only [List.map, allIncludes, includesCheck, List.all_cons]
    cases h : cs.any (fun x => x.eqStr s) <;> simp [h, ih]

/-- `every` with absent choices accepts everything. -/
theorem allIncludes_undef (ss : List String) :
    allIncludes .jundefined (ss.map JVal.jstr) = some true := by
  induction ss with
  | nil => rfl
  | cons s rest ih => simpa [allIncludes, includesCheck] using ih

/-- `every` with null choices accepts everything. -/
theorem allIncludes_null (ss : List String) :
    allIncludes .jnull (ss.map JVal.jstr) = some true := by
  induction ss with
  | nil => rfl
  | cons s rest ih => simpa [allIncludes, includesCheck] using ih

/-- A mapped string list passes the `z.array(z.string())` element check. -/
theorem map_jstr_all_isStr (ss : List String) :
    (ss.map JVal.jstr).all JVal.isStr = true := by
  induction ss with
  | nil => rfl
  | cons s rest ih => simpa [JVal.isStr] using ih

/-- **C6.** For a `single_choice` option the built validator accepts a
non-empty string exactly when it is a member of the option's `choices`
list; for `multiple_choice` it accepts a non-empty array of strings exactly
when every element is a member of `choices`; with no `choices` list
(`undefined` or `null`) every such value is accepted; and `null`,
`undefined`, the empty string and the empty array are always accepted.
Membership is JavaScript strict equality, i.e. the string being an element
of the list. -/
theorem buildZodSchema_choice_validation (so mo : JVal)
    (hs : so.getMember "option_type" = .jstr "single_choice")
    (hm : mo.getMember "option_type" = .jstr "multiple_choice") :
    (∀ cs : List JVal, so.getMember "choices" = .jarr cs →
      ∀ s : String, s ≠ "" →
        (zOptionOf so).accepts (.jstr s) = some (cs.any (fun x => x.eqStr s))) ∧
    ((so.getMember "choices" = .jundefined ∨ so.getMember "choices" = .jnull) →
      ∀ s : String, (zOptionOf so).accepts (.jstr s) = some true) ∧
    ((zOptionOf so).accepts .jnull = some true ∧
     (zOptionOf so).accepts .jundefined = some true ∧
     (zOptionOf so).accepts (.jstr "") = some true) ∧
    (∀ cs : List JVal, mo.getMember "choices" = .jarr cs →
      ∀ ss : List String, ss ≠ [] →
        (zOptionOf mo).accepts (.jarr (ss.map JVal.jstr)) =
          some (ss.all (fun s => cs.any (fun x => x.eqStr s)))) ∧
    ((mo.getMember "choices" = .jundefined ∨ mo.getMember "choices" = .jnull) →
      ∀ ss : List String,
        (zOptionOf mo).accepts (.jarr (ss.map JVal.jstr)) = some true) ∧
    ((zOptionOf mo).accepts .jnull = some true ∧
     (zOptionOf mo).accepts .jundefined = some true ∧
     (zOptionOf mo).accepts (.jarr []) = some true) := by
  have hzs : zOptionOf so = .singleChoice (so.getMember "choices") := by
    unfold zOptionOf; simp [hs, JVal.eqStr]
  have hzm : zOptionOf mo = .multiChoice (mo.getMember "choices") := by
    unfold zOptionOf; simp [hm, JVal.eqStr]
  refine ⟨?_, ?_, ?_, ?_, ?_, ?_⟩
  · intro cs hcs s hne
    rw [hzs]
    simp [ZOption.accepts, hcs, hne, includesCheck]
  · rintro (h | h) <;> intro s <;> rw [hzs] <;>
      by_cases hne : s = "" <;> simp [ZOption.accepts, h, hne, includesCheck]
  · exact ⟨by rw [hzs]; rfl, by rw [hzs]; rfl, by rw [hzs]; rfl⟩
  · intro cs hcs ss hne
    rw [hzm]
    have hemp : (ss.map JVal.jstr).isEmpty = false := by
      cases ss
      · exact absurd rfl hne
      · rfl
    simp [ZOption.accepts, hcs, map_jstr_all_isStr, hemp, allIncludes_arr]
  · rintro (h | h) <;> intro ss <;> rw [hzm] <;>
      simp [ZOption.accepts, h, map_jstr_all_isStr, allIncludes_undef,
        allIncludes_null]
  · exact ⟨by rw [hzm]; rfl, by rw [hzm]; rfl, by rw [hzm]; rfl⟩

/-- Witness for C6: `"b"` is accepted against choices `["a","b"]`. -/
theorem buildZodSchema_choice_validation_instance :
    (zOptionOf (.jobj [("option_type", .jstr "single_choice"),
        ("choices", .jarr [.jstr "a", .jstr "b"])])).accepts (.jstr "b") =
      some ([JVal.jstr "a", JVal.jstr "b"].any (fun x => x.eqStr "b")) :=
  (buildZodSchema_choice_validation
    (.jobj [("option_type", .jstr "single_choice"),
        ("choices", .jarr [.jstr "a", .jstr "b"])])
    (.jobj [("option_type", .jstr "multiple_choice")])
    rfl rfl).1 [.jstr "a", .jstr "b"] rfl "b" (by decide)

/-- **C3.** Building validation directly from a field group in schema
(object) format equals building it from the converted field array:
`buildZodSchema` on `{fieldGroups: {g: S}}` and on
`{fieldGroups: {g: convertSchemaToFields(S, g)}}` produce the same
validation shape. -/
theorem buildZodSchema_convert_roundtrip (g : String) (es : List (String × JVal)) :
    buildZodSchema (.jobj [("fieldGroups", .jobj [(g, .jobj es)])]) =
      buildZodSchema
        (.jobj [("fieldGroups",
          .jobj [(g, .jarr (convertSchemaToFields (.jobj es) g))])]) := by
  unfold buildZodSchema
  norm_num [goGroups, groupFieldsOf, JVal.getMember, lookupEntry, JVal.typeof,
    JVal.truthy, JVal.optMember, JVal.ownKeys]

/-!
## Association-list lemmas

Shared facts about `assocSet` / `lookupEntry` used to characterize the
accumulator loops.
-/

/-- Setting a fresh key appends the entry. -/
theorem assocSet_of_not_mem {α : Type} (es : List (String × α)) (k : String) (v : α)
    (h : k ∉ es.map Prod.fst) : assocSet es k v = es ++ [(k, v)] := by
  induction es with
  | nil => rfl
  | cons e rest ih =>
    obtain ⟨k2, v2⟩ := e
    simp only [List.map_cons, List.mem_cons] at h
    push_neg at h
    simp only [assocSet, List.cons_append]
    rw [if_neg (fun he => h.1 he.symm), ih h.2]

/-- Looking up a key absent from the list yields `undefined`. -/
theorem lookupEntry_not_mem (acc : List (String × JVal)) (f : String)
    (h : f ∉ acc.map Prod.fst) : lookupEntry acc f = .jundefined := by
  induction acc with
  | nil => rfl
  | cons e rest ih =>
    obtain ⟨k, v⟩ := e
    simp only [List.map_cons, List.mem_cons] at h
    push_neg at h
    simp only [lookupEntry]
    rw [if_neg (fun he => h.1 he.symm), ih h.2]

/-- Looking up the key of a freshly appended entry finds it. -/
theorem lookupEntry_append_right (acc : List (String × JVal)) (f : String) (x : JVal)
    (h : f ∉ acc.map Prod.fst) : lookupEntry (acc ++ [(f, x)]) f = x := by
  induction acc with
  | nil => simp [lookupEntry]
  | cons e rest ih =>
    obtain ⟨k, v⟩ := e
    simp only [List.map_cons, List.mem_cons] at h
    push_neg at h
    simp only [List.cons_append, lookupEntry]
    rw [if_neg (Ne.symm h.1)]
    exact ih h.2

/-- Re-setting the key of a freshly appended entry replaces it in place. -/
theorem assocSet_append_update {α : Type} (acc : List (String × α)) (f : String)
    (x y : α) (h : f ∉ acc.map Prod.fst) :
    assocSet (acc ++ [(f, x)]) f y = acc ++ [(f, y)] := by
  induction acc with
  | nil => simp [assocSet]
  | cons e rest ih =>
    obtain ⟨k, v⟩ := e
    simp only [List.map_cons, List.mem_cons] at h
    push_neg at h
    simp only [List.cons_append, assocSet, List.append_eq]
    rw [if_neg (Ne.symm h.1)]
    rw [ih h.2]

/-- Folding `assocSet` over fresh pairwise-distinct keys appends them in
order. -/
theorem foldl_assocSet_append {α : Type} :
    ∀ (ps acc : List (String × α)),
      (ps.map Prod.fst).Nodup →
      (∀ k ∈ ps.map Prod.fst, k ∉ acc.map Prod.fst) →
      List.foldl (fun a q => assocSet a q.1 q.2) acc ps = acc ++ ps := by
  intro ps
  induction ps with
  | nil => intro acc _ _; simp
  | cons q rest ih =>
    intro acc hnd hdisj
    obtain ⟨k, v⟩ := q
    simp only [List.map_cons, List.nodup_cons] at hnd
    have hdisj2 : ∀ k2 ∈ rest.map Prod.fst, k2 ∉ (acc ++ [(k, v)]).map Prod.fst := by
      intro k2 hk2
      simp only [List.map_append, List.mem_append, List.map_cons, List.map_nil,
        List.mem_singleton]
      push_neg
      constructor
      · exact hdisj k2 (by simp [hk2])
      · intro he
        exact hnd.1 (he ▸ hk2)
    simp only [List.foldl_cons]
    rw [assocSet_of_not_mem acc k v (hdisj k (by simp)),
      ih (acc ++ [(k, v)]) hnd.2 hdisj2]
    simp

/-!
## C10: characterization of the submit-payload formatting
-/

/-- The (key, value) pairs of one field that survive the submit filter, in
key order. -/
def submitKeptPairs (fd : JVal) (okeys : List String) : List (String × JVal) :=
  okeys.filterMap (fun ok =>
    if keepSubmitValue (fd.getMember ok) then some (ok, fd.getMember ok) else none)

/-- A well-formed submit field value: a plain object with pairwise-distinct
keys, or a primitive that the handler's object guard skips. -/
def submitFieldOk (v : JVal) : Bool :=
  match v with
  | .jobj es => decide ((es.map Prod.fst).Nodup)
  | .jarr _ => false
  | _ => true

/-- Claimed payload entry for one form-data field: present exactly when the
field value is an object at least one of whose option values survives the
filter, and then carrying exactly the surviving options. -/
def specSubmitEntry (p : String × JVal) : Option (String × JVal) :=
  match p.2 with
  | .jobj es =>
    let kept := es.filter (fun q => keepSubmitValue q.2)
    if kept.isEmpty then none else some (p.1, .jobj kept)
  | _ => none

/-- Once a field's payload entry exists (freshly, at the end of the
accumulator), each further kept option value is merged into it in place. -/
theorem submitOptionsGo_entry (fd : JVal) (f : String) :
    ∀ (okeys : List String) (acc es : List (String × JVal)),
      f ∉ acc.map Prod.fst →
      submitOptionsGo fd f okeys (acc ++ [(f, .jobj es)]) =
        acc ++ [(f, .jobj (List.foldl (fun a q => assocSet a q.1 q.2) es
          (submitKeptPairs fd okeys)))] := by
  intro okeys
  induction okeys with
  | nil => intro acc es h; simp [submitOptionsGo, submitKeptPairs]
  | cons ok rest ih =>
    intro acc es h
    by_cases hk : keepSubmitValue (fd.getMember ok) = true
    · simp only [submitOptionsGo, submitKeptPairs, List.filterMap_cons, hk, if_true,
        lookupEntry_append_right acc f (.jobj es) h, JVal.truthy, Bool.not_true,
        Bool.false_eq_true, if_false]
      rw [assocSet_append_update acc f (.jobj es)
        (.jobj (assocSet es ok (fd.getMember ok))) h]
      rw [ih acc (assocSet es ok (fd.getMember ok)) h]
      simp [submitKeptPairs]
    · simp only [Bool.not_eq_true] at hk
      simp only [submitOptionsGo, submitKeptPairs, List.filterMap_cons, hk,
        Bool.false_eq_true, if_false]
      exact ih acc es h

/-- The inner submit loop appends at most one entry for its field: none when
no option value survives the filter, otherwise one carrying the folded
surviving pairs. -/
theorem submitOptionsGo_spec (fd : JVal) (f : String) :
    ∀ (okeys : List String) (acc : List (String × JVal)),
      f ∉ acc.map Prod.fst →
      submitOptionsGo fd f okeys acc =
        (if (submitKeptPairs fd okeys).isEmpty then acc
         else acc ++ [(f, .jobj (List.foldl (fun a q => assocSet a q.1 q.2) []
           (submitKeptPairs fd okeys)))]) := by
  intro okeys
  induction okeys with
  | nil => intro acc h; simp [submitOptionsGo, submitKeptPairs]
  | cons ok rest ih =>
    intro acc h
    by_cases hk : keepSubmitValue (fd.getMember ok) = true
    · simp only [submitOptionsGo, submitKeptPairs, List.filterMap_cons, hk, if_true,
        lookupEntry_not_mem acc f h, JVal.truthy, Bool.not_false]
      rw [assocSet_of_not_mem acc f _ h]
      rw [submitOptionsGo_entry fd f rest acc _ h]
      simp [submitKeptPairs, List.isEmpty_cons]
    · simp only [Bool.not_eq_true] at hk
      simp only [submitOptionsGo, submitKeptPairs, List.filterMap_cons, hk,
        Bool.false_eq_true, if_false]
      exact ih acc h

/-- Unfolding one key of the surviving-pairs list. -/
theorem submitKeptPairs_cons (fd : JVal) (ok : String) (oks : List String) :
    submitKeptPairs fd (ok :: oks) =
      (if keepSubmitValue (fd.getMember ok) then [(ok, fd.getMember ok)] else []) ++
        submitKeptPairs fd oks := by
  simp only [submitKeptPairs, List.filterMap_cons]
  split <;> simp_all

/-- Keys other than the head key read past a fresh head entry. -/
theorem submitKeptPairs_cons_ne (a : String) (b : JVal)
    (rest : List (String × JVal)) :
    ∀ okeys : List String, (∀ k ∈ okeys, k ≠ a) →
      submitKeptPairs (.jobj ((a, b) :: rest)) okeys =
        submitKeptPairs (.jobj rest) okeys := by
  intro okeys
  induction okeys with
  | nil => intro _; rfl
  | cons ok oks ih =>
    intro h
    have hne : ok ≠ a := h ok (by simp)
    have hhead : (JVal.jobj ((a, b) :: rest)).getMember ok =
        (JVal.jobj rest).getMember ok := by
      simp only [JVal.getMember, lookupEntry]
      rw [if_neg (Ne.symm hne)]
    rw [submitKeptPairs_cons, submitKeptPairs_cons, hhead,
      ih (fun k hk => h k (by simp [hk]))]

/-- Over an object with pairwise-distinct keys, the surviving pairs are
exactly the filtered entries. -/
theorem submitKeptPairs_jobj (es : List (String × JVal))
    (h : (es.map Prod.fst).Nodup) :
    submitKeptPairs (.jobj es) (es.map Prod.fst) =
      es.filter (fun q => keepSubmitValue q.2) := by
  induction es with
  | nil => rfl
  | cons e rest ih =>
    obtain ⟨a, b⟩ := e
    simp only [List.map_cons, List.nodup_cons] at h
    have hhead : (JVal.jobj ((a, b) :: rest)).getMember a = b := by
      simp [JVal.getMember, lookupEntry]
    rw [List.map_cons, submitKeptPairs_cons, hhead,
      submitKeptPairs_cons_ne a b rest (rest.map Prod.fst)
        (fun k hk he => h.1 (he ▸ hk)),
      ih h.2, List.filter_cons]
    by_cases hb : keepSubmitValue b = true <;> simp [hb]

/-- Filtering preserves distinctness of the keys. -/
theorem filter_keys_nodup {α : Type} (es : List (String × α))
    (p : String × α → Bool) (h : (es.map Prod.fst).Nodup) :
    ((es.filter p).map Prod.fst).Nodup :=
  h.sublist ((List.filter_sublist es).map Prod.fst)

/-- Fields other than the head field read past the head entry of the form
data. -/
theorem submitFieldsGo_cons_ne (a : String) (b : JVal)
    (rest : List (String × JVal)) :
    ∀ (keys : List String) (acc : List (String × JVal)), (∀ k ∈ keys, k ≠ a) →
      submitFieldsGo (.jobj ((a, b) :: rest)) keys acc =
        submitFieldsGo (.jobj rest) keys acc := by
  intro keys
  induction keys with
  | nil => intro acc _; rfl
  | cons k ks ih =>
    intro acc h
    have hne : k ≠ a := h k (by simp)
    have hhead : (JVal.jobj ((a, b) :: rest)).getMember k =
        (JVal.jobj rest).getMember k := by
      simp only [JVal.getMember, lookupEntry]
      rw [if_neg (Ne.symm hne)]
    have ihh := fun acc2 => ih acc2 (fun k2 hk2 => h k2 (by simp [hk2]))
    simp only [submitFieldsGo]
    rw [hhead]
    split <;> rw [ihh]

/-- The outer submit loop appends exactly the claimed entries. -/
theorem submitFieldsGo_spec :
    ∀ (fields acc : List (String × JVal)),
      (fields.map Prod.fst).Nodup →
      (∀ p ∈ fields, submitFieldOk p.2 = true) →
      (∀ k ∈ fields.map Prod.fst, k ∉ acc.map Prod.fst) →
      submitFieldsGo (.jobj fields) (fields.map Prod.fst) acc =
        acc ++ fields.filterMap specSubmitEntry := by
  intro fields
  induction fields with
  | nil => intro acc _ _ _; simp [submitFieldsGo]
  | cons e rest ih =>
    intro acc hnd hok hdisj
    obtain ⟨f, v⟩ := e
    simp only [List.map_cons, List.nodup_cons] at hnd
    have hfacc : f ∉ acc.map Prod.fst := hdisj f (by simp)
    have hvok := hok (f, v) (by simp)
    have hne : ∀ k ∈ rest.map Prod.fst, k ≠ f := fun k hk he => hnd.1 (he ▸ hk)
    have hhead : (JVal.jobj ((f, v) :: rest)).getMember f = v := by
      simp [JVal.getMember, lookupEntry]
    simp only [List.map_cons, submitFieldsGo]
    rw [hhead]
    cases v with
    | jarr xs => exact absurd hvok (by simp [submitFieldOk])
    | jobj es =>
      have hesnd : (es.map Prod.fst).Nodup := by
        simpa [submitFieldOk] using hvok
      have hc : (JVal.truthy (.jobj es) && (JVal.typeof (.jobj es) == "object")) =
          true := rfl
      rw [if_pos hc]
      rw [show JVal.ownKeys (.jobj es) = es.map Prod.fst from rfl]
      rw [submitOptionsGo_spec (.jobj es) f (es.map Prod.fst) acc hfacc]
      rw [submitKeptPairs_jobj es hesnd]
      rw [foldl_assocSet_append (es.filter (fun q => keepSubmitValue q.2)) []
        (filter_keys_nodup es _ hesnd) (by simp)]
      simp only [List.nil_append]
      by_cases hkept : (es.filter (fun q => keepSubmitValue q.2)).isEmpty = true
      · rw [if_pos hkept]
        rw [submitFieldsGo_cons_ne f (.jobj es) rest (rest.map Prod.fst) acc hne]
        rw [ih acc hnd.2 (fun p hp => hok p (by simp [hp]))
          (fun k hk => hdisj k (by simp [hk]))]
        simp [List.filterMap_cons, specSubmitEntry, hkept]
      · rw [if_neg hkept]
        rw [submitFieldsGo_cons_ne f (.jobj es) rest (rest.map Prod.fst)
          (acc ++ [(f, JVal.jobj (es.filter (fun q => keepSubmitValue q.2)))]) hne]
        rw [ih (acc ++ [(f, JVal.jobj (es.filter (fun q => keepSubmitValue q.2)))])
          hnd.2 (fun p hp => hok p (by simp [hp])) ?_]
        · simp [List.filterMap_cons, specSubmitEntry, hkept, List.append_assoc]
        · intro k hk
          simp only [List.map_append, List.mem_append, List.map_cons, List.map_nil,
            List.mem_singleton]
          push_neg
          exact ⟨hdisj k (by simp [hk]), fun he => hnd.1 (he ▸ hk)⟩
    | jundefined =>
      have hc : (JVal.truthy .jundefined && (JVal.typeof .jundefined == "object")) = false := rfl
      rw [hc]
      simp only [Bool.false_eq_true, if_false]
      rw [submitFieldsGo_cons_ne f .jundefined rest (rest.map Prod.fst) acc hne]
      rw [ih acc hnd.2 (fun p hp => hok p (by simp [hp]))
        (fun k hk => hdisj k (by simp [hk]))]
      simp [List.filterMap_cons, specSubmitEntry]
    | jnull =>
      have hc : (JVal.truthy .jnull && (JVal.typeof .jnull == "object")) = false := rfl
      rw [hc]
      simp only [Bool.false_eq_true, if_false]
      rw [submitFieldsGo_cons_ne f .jnull rest (rest.map Prod.fst) acc hne]
      rw [ih acc hnd.2 (fun p hp => hok p (by simp [hp]))
        (fun k hk => hdisj k (by simp [hk]))]
      simp [List.filterMap_cons, specSubmitEntry]
    | jbool b =>
      have hc : (JVal.truthy (.jbool b) && (JVal.typeof (.jbool b) == "object")) =
          false := by simp [JVal.truthy, JVal.typeof]
      rw [hc]
      simp only [Bool.false_eq_true, if_false]
      rw [submitFieldsGo_cons_ne f (.jbool b) rest (rest.map Prod.fst) acc hne]
      rw [ih acc hnd.2 (fun p hp => hok p (by simp [hp]))
        (fun k hk => hdisj k (by simp [hk]))]
      simp [List.filterMap_cons, specSubmitEntry]
    | jnum n =>
      have hc : (JVal.truthy (.jnum n) && (JVal.typeof (.jnum n) == "object")) =
          false := by simp [JVal.truthy, JVal.typeof]
      rw [hc]
      simp only [Bool.false_eq_true, if_false]
      rw [submitFieldsGo_cons_ne f (.jnum n) rest (rest.map Prod.fst) acc hne]
      rw [ih acc hnd.2 (fun p hp => hok p (by simp [hp]))
        (fun k hk => hdisj k (by simp [hk]))]
      simp [List.filterMap_cons, specSubmitEntry]
    | jstr s =>
      have hc : (JVal.truthy (.jstr s) && (JVal.typeof (.jstr s) == "object")) =
          false := by simp [JVal.truthy, JVal.typeof]
      rw [hc]
      simp only [Bool.false_eq_true, if_false]
      rw [submitFieldsGo_cons_ne f (.jstr s) rest (rest.map Prod.fst) acc hne]
      rw [ih acc hnd.2 (fun p hp => hok p (by simp [hp]))
        (fun k hk => hdisj k (by simp [hk]))]
      simp [List.filterMap_cons, specSubmitEntry]

/-- **C10.** The payload sent by the submit handler contains exactly those
(field, option) values of the form data that are not `null`, not
`undefined`, and not the empty string; in particular a boolean `false`
answer and an empty array pass the filter, and a field whose every option
value is filtered out is absent from the payload entirely. -/
theorem onSubmit_payload_filter (fields : List (String × JVal))
    (hnd : (fields.map Prod.fst).Nodup)
    (hok : ∀ p ∈ fields, submitFieldOk p.2 = true) :
    formatSubmitData (.jobj fields) = .jobj (fields.filterMap specSubmitEntry) ∧
    keepSubmitValue (.jbool false) = true ∧
    keepSubmitValue (.jarr []) = true := by
  refine ⟨?_, rfl, rfl⟩
  unfold formatSubmitData
  rw [show JVal.ownKeys (.jobj fields) = fields.map Prod.fst from rfl]
  rw [submitFieldsGo_spec fields [] hnd hok (by simp)]
  simp

/-- Witness for C10: the empty note is dropped, the `false` answer and the
empty tag array are kept, and the all-filtered field disappears. -/
theorem onSubmit_payload_filter_instance :
    formatSubmitData (.jobj [("pain", .jobj [("level", .jnum 3), ("note", .jstr "")]),
        ("sleep", .jobj [("well", .jbool false), ("tags", .jarr [])]),
        ("skipped", .jobj [("x", .jnull)])]) =
      .jobj ([("pain", .jobj [("level", .jnum 3), ("note", .jstr "")]),
        ("sleep", .jobj [("well", .jbool false), ("tags", .jarr [])]),
        ("skipped", .jobj [("x", .jnull)])].filterMap specSubmitEntry) ∧
    keepSubmitValue (.jbool false) = true ∧
    keepSubmitValue (.jarr []) = true :=
  onSubmit_payload_filter
    [("pain", .jobj [("level", .jnum 3), ("note", .jstr "")]),
     ("sleep", .jobj [("well", .jbool false), ("tags", .jarr [])]),
     ("skipped", .jobj [("x", .jnull)])]
    (by decide) (by decide)

/-!
## C5: characterization of the built schema shape
-/

/-- Unfolding one option of the claimed nested entries. -/
theorem specOptionEntries_cons (o : JVal) (rest : List JVal) :
    specOptionEntries (o :: rest) =
      (if (o.getMember "option_name").truthy then
        [((o.getMember "option_name").toKeyString, zOptionOf o)] else []) ++
        specOptionEntries rest := by
  simp only [specOptionEntries, List.filterMap_cons]
  split <;> simp_all

/-- The option loop folds the claimed entries over the accumulator, and
never throws when no option entry is `null` or `undefined`. -/
theorem processOptions_spec :
    ∀ (opts : List JVal) (acc : List (String × ZOption)),
      (∀ o ∈ opts, o.isNull = false ∧ o.isUndef = false) →
      processOptions opts acc =
        some (List.foldl (fun a q => assocSet a q.1 q.2) acc
          (specOptionEntries opts)) := by
  intro opts
  induction opts with
  | nil => intro acc _; simp [processOptions, specOptionEntries]
  | cons o rest ih =>
    intro acc h
    have ho := h o (by simp)
    rw [specOptionEntries_cons]
    simp only [processOptions, ho.1, ho.2, Bool.or_self, Bool.false_eq_true, if_false]
    by_cases hn : ((o.getMember "option_name").truthy) = true
    · rw [if_pos hn, ih _ (fun o2 ho2 => h o2 (by simp [ho2]))]
      simp [hn, List.foldl_cons]
    · rw [if_neg hn, ih _ (fun o2 ho2 => h o2 (by simp [ho2]))]
      simp [hn]

/-- The per-field schema accumulator evaluates to the claimed nested
entries (the empty list when `options` is not an array). -/
theorem fieldOptions_eval (f : JVal)
    (hth : ∀ o ∈ optionsListOf f, o.isNull = false ∧ o.isUndef = false)
    (hno : ((specOptionEntries (optionsListOf f)).map Prod.fst).Nodup) :
    (match f.getMember "options" with
      | .jarr opts => processOptions opts []
      | _ => some []) = some (specOptionEntries (optionsListOf f)) := by
  cases hopts : f.getMember "options" with
  | jarr opts =>
    have holist : optionsListOf f = opts := by simp [optionsListOf, hopts]
    dsimp only
    rw [processOptions_spec opts [] (holist ▸ hth)]
    rw [foldl_assocSet_append (specOptionEntries opts) [] (holist ▸ hno) (by simp)]
    rw [holist]
    simp
  | jundefined => simp [optionsListOf, hopts, specOptionEntries]
  | jnull => simp [optionsListOf, hopts, specOptionEntries]
  | jbool b => simp [optionsListOf, hopts, specOptionEntries]
  | jnum n => simp [optionsListOf, hopts, specOptionEntries]
  | jstr s => simp [optionsListOf, hopts, specOptionEntries]
  | jobj es => simp [optionsListOf, hopts, specOptionEntries]

/-- A field with no surviving option entries contributes nothing. -/
theorem specFieldEntry_none (f : JVal)
    (hke : specOptionEntries (optionsListOf f) = []) : specFieldEntry f = none := by
  unfold specFieldEntry
  split
  · split
    · rename_i opts heq
      have holist : optionsListOf f = opts := by simp [optionsListOf, heq]
      rw [if_pos]
      rw [← holist, hke]
      rfl
    · rfl
  · rfl

/-- A surviving field contributes its keyed optional entry. -/
theorem specFieldEntry_some (f : JVal)
    (hc : (f.truthy && (f.getMember "field_name").truthy) = true)
    (hke : specOptionEntries (optionsListOf f) ≠ []) :
    specFieldEntry f = some ((f.getMember "field_name").toKeyString,
      ⟨true, specOptionEntries (optionsListOf f)⟩) := by
  unfold specFieldEntry
  rw [if_pos hc]
  split
  · rename_i opts heq
    have holist : optionsListOf f = opts := by simp [optionsListOf, heq]
    rw [← holist]
    rw [if_neg (by simp [List.isEmpty_iff, hke])]
  · rename_i heq
    have holist : optionsListOf f = [] := by
      unfold optionsListOf
      split
      · rename_i opts2 heq2
        exact absurd heq2 (by intro hx; exact heq opts2 hx)
      · rfl
    rw [holist] at hke
    exact absurd rfl hke

/-- The field loop appends exactly the claimed top-level entries. -/
theorem processFields_spec :
    ∀ (fields : List JVal) (shape : ZShape),
      (∀ f ∈ fields, ∀ o ∈ optionsListOf f, o.isNull = false ∧ o.isUndef = false) →
      (∀ f ∈ fields, ((specOptionEntries (optionsListOf f)).map Prod.fst).Nodup) →
      ((fields.filterMap specFieldEntry).map Prod.fst).Nodup →
      (∀ k ∈ (fields.filterMap specFieldEntry).map Prod.fst,
        k ∉ shape.map Prod.fst) →
      processFields fields shape = some (shape ++ fields.filterMap specFieldEntry) := by
  intro fields
  induction fields with
  | nil => intro shape _ _ _ _; simp [processFields]
  | cons f rest ih =>
    intro shape hth hno hnd hdisj
    simp only [processFields]
    by_cases hc : (f.truthy && (f.getMember "field_name").truthy) = true
    · rw [if_pos hc]
      rw [fieldOptions_eval f (hth f (by simp)) (hno f (by simp))]
      dsimp only
      by_cases hke : specOptionEntries (optionsListOf f) = []
      · have hspec := specFieldEntry_none f hke
        rw [hke]
        simp only [List.length_nil, gt_iff_lt, lt_self_iff_false, if_false]
        rw [ih shape (fun f2 h2 => hth f2 (by simp [h2]))
          (fun f2 h2 => hno f2 (by simp [h2]))
          (by simpa [List.filterMap_cons, hspec] using hnd)
          (fun k hk => hdisj k (by simp [List.filterMap_cons, hspec, hk]))]
        simp [List.filterMap_cons, hspec]
      · have hlen : (specOptionEntries (optionsListOf f)).length > 0 :=
          List.length_pos.mpr hke
        have hspec := specFieldEntry_some f hc hke
        rw [if_pos hlen]
        have hkey : (f.getMember "field_name").toKeyString ∉ shape.map Prod.fst :=
          hdisj _ (by simp [List.filterMap_cons, hspec])
        rw [assocSet_of_not_mem shape _ _ hkey]
        have hnd' := hnd
        rw [List.filterMap_cons] at hnd'
        simp only [hspec, List.map_cons, List.nodup_cons] at hnd'
        rw [ih (shape ++ [((f.getMember "field_name").toKeyString,
            ZField.mk true (specOptionEntries (optionsListOf f)))])
          (fun f2 h2 => hth f2 (by simp [h2]))
          (fun f2 h2 => hno f2 (by simp [h2]))
          hnd'.2 ?_]
        · simp [List.filterMap_cons, hspec, List.append_assoc]
        · intro k hk
          simp only [List.map_append, List.mem_append, List.map_cons, List.map_nil,
            List.mem_singleton]
          push_neg
          exact ⟨hdisj k (by simp [List.filterMap_cons, hspec, hk]),
            fun he => hnd'.1 (he ▸ hk)⟩
    · rw [if_neg hc]
      have hspec : specFieldEntry f = none := by
        simp only [specFieldEntry]
        rw [if_neg hc]
      rw [ih shape (fun f2 h2 => hth f2 (by simp [h2]))
        (fun f2 h2 => hno f2 (by simp [h2]))
        (by simpa [List.filterMap_cons, hspec] using hnd)
        (fun k hk => hdisj k (by simp [List.filterMap_cons, hspec, hk]))]
      simp [List.filterMap_cons, hspec]

/-- Processing a concatenation of field lists threads the shape through. -/
theorem processFields_append (a b : List JVal) :
    ∀ shape : ZShape,
      processFields (a ++ b) shape =
        (processFields a shape).bind (fun s => processFields b s) := by
  induction a with
  | nil => intro shape; rfl
  | cons f rest ih =>
    intro shape
    show processFields (f :: (rest ++ b)) shape = _
    simp only [processFields]
    by_cases hc : (f.truthy && (f.getMember "field_name").truthy) = true
    · rw [if_pos hc, if_pos hc]
      generalize (match f.getMember "options" with
        | .jarr opts => processOptions opts []
        | _ => some []) = r
      cases r with
      | none => rfl
      | some fs =>
        dsimp only
        by_cases hl : fs.length > 0
        · rw [if_pos hl, if_pos hl, ih]
        · rw [if_neg hl, if_neg hl, ih]
    · rw [if_neg hc, if_neg hc, ih]

/-- The group loop is the field loop over the concatenation of all groups'
fields. -/
theorem goGroups_flatten (fg : JVal) :
    ∀ (keys : List String) (shape : ZShape),
      goGroups fg keys shape =
        processFields ((keys.map (groupFieldsOf fg)).flatten) shape := by
  intro keys
  induction keys with
  | nil => intro shape; rfl
  | cons g rest ih =>
    intro shape
    simp only [goGroups, List.map_cons, List.flatten_cons]
    rw [processFields_append]
    cases h : processFields (groupFieldsOf fg g) shape with
    | none => rfl
    | some s2 => exact ih s2

/-- **C5.** For every form schema with a (truthy) `fieldGroups` property,
`buildZodSchema` returns a top-level object schema with exactly one
optional nested-object entry per field that contributes at least one
option, keyed by that field's `field_name`, each nested entry keyed by the
option's `option_name` (the `fieldName.optionName` nesting); fields with no
`field_name` or no recognized options are omitted.  Stated under the
well-formedness side conditions that no `options` array contains a `null`
or `undefined` entry (on which the source would throw) and that the
contributing field names, and each field's surviving option names, are
pairwise distinct (so "one entry per field" is meaningful). -/
theorem buildZodSchema_shape (fs : JVal)
    (hfg : (fs.optMember "fieldGroups").truthy = true)
    (hth : ∀ f ∈ collectFields (fs.optMember "fieldGroups"),
      ∀ o ∈ optionsListOf f, o.isNull = false ∧ o.isUndef = false)
    (hno : ∀ f ∈ collectFields (fs.optMember "fieldGroups"),
      ((specOptionEntries (optionsListOf f)).map Prod.fst).Nodup)
    (hnd : (((collectFields (fs.optMember "fieldGroups")).filterMap
      specFieldEntry).map Prod.fst).Nodup) :
    buildZodSchema fs =
      some ((collectFields (fs.optMember "fieldGroups")).filterMap specFieldEntry) ∧
    ∀ p ∈ (collectFields (fs.optMember "fieldGroups")).filterMap specFieldEntry,
      p.2.isOptional = true := by
  constructor
  · simp only [buildZodSchema]
    rw [if_neg (by simp [hfg])]
    rw [goGroups_flatten]
    rw [show (((fs.optMember "fieldGroups").ownKeys.map
        (groupFieldsOf (fs.optMember "fieldGroups"))).flatten) =
      collectFields (fs.optMember "fieldGroups") from rfl]
    rw [processFields_spec (collectFields (fs.optMember "fieldGroups")) []
      hth hno hnd (by simp)]
    simp
  · intro p hp
    obtain ⟨f, hf, hsome⟩ := List.mem_filterMap.mp hp
    by_cases hke : specOptionEntries (optionsListOf f) = []
    · rw [specFieldEntry_none f hke] at hsome
      exact Option.noConfusion hsome
    · by_cases hc : (f.truthy && (f.getMember "field_name").truthy) = true
      · rw [specFieldEntry_some f hc hke] at hsome
        obtain rfl := Option.some.inj hsome
        rfl
      · rw [show specFieldEntry f = none from by
          simp only [specFieldEntry]; rw [if_neg hc]] at hsome
        exact Option.noConfusion hsome

/-- Witness for C5 on a one-group, one-field, one-option schema. -/
theorem buildZodSchema_shape_instance :
    buildZodSchema (.jobj [("fieldGroups", .jobj [("daily", .jarr [
        .jobj [("field_name", .jstr "mood"), ("options", .jarr [
          .jobj [("option_name", .jstr "level"),
                 ("option_type", .jstr "rating")]])]])])]) =
      some ((collectFields ((JVal.jobj [("fieldGroups", .jobj [("daily", .jarr [
        .jobj [("field_name", .jstr "mood"), ("options", .jarr [
          .jobj [("option_name", .jstr "level"),
                 ("option_type", .jstr "rating")]])]])])]).optMember
        "fieldGroups")).filterMap specFieldEntry) :=
  (buildZodSchema_shape
    (.jobj [("fieldGroups", .jobj [("daily", .jarr [
        .jobj [("field_name", .jstr "mood"), ("options", .jarr [
          .jobj [("option_name", .jstr "level"),
                 ("option_type", .jstr "rating")]])]])])])
    rfl (by decide) (by decide) (by decide)).1
